import Mathlib

/-!
Shallow embedding of validate.py, the JSON validation pipeline of the
thronesdb-json-data repository.

Modelling conventions:
* Parsed Python JSON values are the mutual inductive type Json / JArr / JObj.
  Python dicts are key/value lists in insertion order (json.loads inserts in
  document order); Python dict keys coming from JSON are always strings.
* JSON numbers are modelled as integers (the repository's data uses integral
  numbers only); float-valued documents are outside the model, as are lone
  surrogate escapes in strings.
* Python text is List Char (Unicode code points); writing a file back in
  fix_formatting mode is an external side effect that no later computation of
  the run observes, so it is not part of the state.
* The jsonschema library is the pluggable capability demanded by the spec: an
  environment supplies draft4Ok (Draft4Validator.check_schema succeeds) and
  schemaValidate (jsonschema.validate raises no ValidationError).
* Uncaught Python exceptions (KeyError, TypeError, IOError) and sys.exit on
  environment errors are the error side of Except.
-/

mutual
inductive Json where
  | null : Json
  | bool (b : Bool) : Json
  | num (n : Int) : Json
  | str (s : String) : Json
  | arr (items : JArr) : Json
  | obj (fields : JObj) : Json
deriving DecidableEq
inductive JArr where
  | nil : JArr
  | cons (hd : Json) (tl : JArr) : JArr
deriving DecidableEq
inductive JObj where
  | nil : JObj
  | cons (key : String) (val : Json) (tl : JObj) : JObj
deriving DecidableEq
end

mutual
/-- Node-count measure used to bound the recursion depth of the parser. -/
def jsize : Json → Nat
  | .null => 1
  | .bool _ => 1
  | .num _ => 1
  | .str _ => 1
  | .arr items => 1 + asize items
  | .obj fields => 1 + osize fields
def asize : JArr → Nat
  | .nil => 0
  | .cons h t => 1 + jsize h + asize t
def osize : JObj → Nat
  | .nil => 0
  | .cons _ v t => 1 + jsize v + osize t
end

/-- Python truthiness of a parsed JSON value (None, False, 0, empty string,
empty list and empty dict are falsy). -/
def pyTruthy : Json → Bool
  | .null => false
  | .bool b => b
  | .num n => if n = 0 then false else true
  | .str s => if s = "" then false else true
  | .arr .nil => false
  | .arr (.cons _ _) => true
  | .obj .nil => false
  | .obj (.cons _ _ _) => true

/-- Python truthiness of an optional value, None being falsy. -/
def pyTruthyOpt : Option Json → Bool
  | none => false
  | some j => pyTruthy j

/-- Python isinstance(x, list) for a loaded document (None is not a list). -/
def pyIsList : Option Json → Bool
  | some (.arr _) => true
  | _ => false

/-! ## The canonical serializer: json.dumps(..., ensure_ascii=False,
sort_keys=True, indent=4, separators=(",", ": ")) -/

/-- Lowercase hexadecimal digit, as produced by the %04x escape of json.dumps. -/
def hexDigitChar (n : Nat) : Char :=
  if n < 10 then Char.ofNat (48 + n) else Char.ofNat (87 + n)

/-- Escape of one character inside a JSON string, ensure_ascii=False flavour:
backslash, double quote and control characters are escaped (with the b, t, n,
f, r shortcuts), everything else is emitted literally. -/
def escapeChar (c : Char) : List Char :=
  if c = '\\' then ['\\', '\\']
  else if c = '"' then ['\\', '"']
  else if 32 ≤ c.toNat then [c]
  else if c = Char.ofNat 8 then ['\\', 'b']
  else if c = Char.ofNat 9 then ['\\', 't']
  else if c = Char.ofNat 10 then ['\\', 'n']
  else if c = Char.ofNat 12 then ['\\', 'f']
  else if c = Char.ofNat 13 then ['\\', 'r']
  else ['\\', 'u', '0', '0', hexDigitChar (c.toNat / 16), hexDigitChar (c.toNat % 16)]

/-- Escape every character of a string body. -/
def escChars : List Char → List Char
  | [] => []
  | c :: cs => escapeChar c ++ escChars cs

/-- A JSON string literal: quote, escaped body, quote. -/
def quoteString (s : String) : List Char :=
  '"' :: (escChars s.data ++ ['"'])

/-- Decimal digit character. -/
def digitChar (n : Nat) : Char := Char.ofNat (48 + n)

/-- Fuelled accumulator loop producing the decimal digits of n in front of acc. -/
def natToCharsAux : Nat → Nat → List Char → List Char
  | 0, _, acc => acc
  | fuel + 1, n, acc =>
    if n < 10 then digitChar n :: acc
    else natToCharsAux fuel (n / 10) (digitChar (n % 10) :: acc)

/-- Decimal representation of a natural number (Python str of an int). -/
def natToChars (n : Nat) : List Char := natToCharsAux (n + 1) n []

/-- Decimal representation of an integer, with a sign for negatives. -/
def intToChars : Int → List Char
  | .ofNat n => natToChars n
  | .negSucc m => '-' :: natToChars (m + 1)

/-- Python code-point comparison of strings (str less-than), used by sorted(). -/
def ltChars : List Char → List Char → Bool
  | [], [] => false
  | [], _ :: _ => true
  | _ :: _, [] => false
  | a :: as, b :: bs =>
    if a.toNat < b.toNat then true
    else if b.toNat < a.toNat then false
    else ltChars as bs

/-- Stable insertion of a key/value pair into a key-sorted field list, matching
Python sorted() with the key's string order. -/
def insertField (k : String) (v : Json) : JObj → JObj
  | .nil => .cons k v .nil
  | .cons k2 v2 tl =>
    if ltChars k2.data k.data then .cons k2 v2 (insertField k v tl)
    else .cons k v (.cons k2 v2 tl)

/-- Key-sort of an object's field list (sort_keys=True at one level). -/
def sortFields : JObj → JObj
  | .nil => .nil
  | .cons k v tl => insertField k v (sortFields tl)

mutual
/-- Recursive key-sorting of a whole document: the value dumps serializes when
sort_keys=True is in effect, applied as a pre-pass. -/
def sortJson : Json → Json
  | .null => .null
  | .bool b => .bool b
  | .num n => .num n
  | .str s => .str s
  | .arr items => .arr (sortArr items)
  | .obj fields => .obj (sortFields (sortObjVals fields))
def sortArr : JArr → JArr
  | .nil => .nil
  | .cons h t => .cons (sortJson h) (sortArr t)
def sortObjVals : JObj → JObj
  | .nil => .nil
  | .cons k v t => .cons k (sortJson v) (sortObjVals t)
end

/-- Indentation for nesting depth d with indent=4. -/
def indentChars (d : Nat) : List Char := List.replicate (4 * d) ' '

/-- The literal word null. -/
def nullChars : List Char := ['n', 'u', 'l', 'l']

/-- The literal word true. -/
def trueChars : List Char := ['t', 'r', 'u', 'e']

/-- The literal word false. -/
def falseChars : List Char := ['f', 'a', 'l', 's', 'e']

mutual
/-- Rendering of a key-sorted document at nesting depth d, exactly as
json.dumps with indent=4 and separators=(",", ": ") lays it out; key sorting
has already been applied by sortJson. -/
def dumps (d : Nat) : Json → List Char
  | .null => nullChars
  | .bool true => trueChars
  | .bool false => falseChars
  | .num n => intToChars n
  | .str s => quoteString s
  | .arr .nil => ['[', ']']
  | .arr (.cons h t) =>
    '[' :: '\n' :: (indentChars (d + 1) ++ (dumps (d + 1) h ++
      (dumpsArrItems (d + 1) t ++ ('\n' :: (indentChars d ++ [']'])))))
  | .obj .nil => ['{', '}']
  | .obj (.cons k v t) =>
    '{' :: '\n' :: (indentChars (d + 1) ++ (quoteString k ++ (':' :: ' ' ::
      (dumps (d + 1) v ++ (dumpsObjItems (d + 1) t ++ ('\n' :: (indentChars d ++ ['}'])))))))
def dumpsArrItems (d : Nat) : JArr → List Char
  | .nil => []
  | .cons h t => ',' :: '\n' :: (indentChars d ++ (dumps d h ++ dumpsArrItems d t))
def dumpsObjItems (d : Nat) : JObj → List Char
  | .nil => []
  | .cons k v t =>
    ',' :: '\n' :: (indentChars d ++ (quoteString k ++ (':' :: ' ' ::
      (dumps d v ++ dumpsObjItems d t))))
end

/-- format_json of validate.py: the canonical serialization of a document,
json.dumps with ensure_ascii=False, sort_keys=True, indent=4,
separators=(",", ": "), followed by one newline. -/
def format_json (j : Json) : List Char :=
  dumps 0 (sortJson j) ++ ['\n']

theorem format_json_smoke :
    format_json (Json.obj (.cons "b" (Json.num 1) (.cons "a" Json.null .nil))) =
      ['{', '\n', ' ', ' ', ' ', ' ', '"', 'a', '"', ':', ' ', 'n', 'u', 'l', 'l', ',',
       '\n', ' ', ' ', ' ', ' ', '"', 'b', '"', ':', ' ', '1', '\n', '}', '\n'] := rfl

/-! ## The parser: a model of json.loads restricted to the integer-numbered,
scalar-value fragment described in the module header -/

/-- JSON whitespace (space, tab, newline, carriage return). -/
def isWs (c : Char) : Bool :=
  c = ' ' || c = '\t' || c = '\n' || c = '\r'

/-- Drop leading JSON whitespace. -/
def skipWs : List Char → List Char
  | [] => []
  | c :: cs => if isWs c then skipWs cs else c :: cs

/-- One hexadecimal digit of a \u escape. -/
def parseHexDigit (c : Char) : Option Nat :=
  if 48 ≤ c.toNat ∧ c.toNat ≤ 57 then some (c.toNat - 48)
  else if 97 ≤ c.toNat ∧ c.toNat ≤ 102 then some (c.toNat - 87)
  else if 65 ≤ c.toNat ∧ c.toNat ≤ 70 then some (c.toNat - 55)
  else none

/-- Prepend a character to the string being collected by parseStringBody. -/
def consMap (c : Char) (r : Option (List Char × List Char)) : Option (List Char × List Char) :=
  match r with
  | some p => some (c :: p.1, p.2)
  | none => none

/-- Body of a JSON string after the opening quote: collected characters plus
the input after the closing quote.  Unknown escapes, raw control characters
(strict mode) and surrogate \u escapes are rejected. -/
def parseStringBody : List Char → Option (List Char × List Char)
  | [] => none
  | c :: cs =>
    if c = '"' then some ([], cs)
    else if c = '\\' then
      match cs with
      | [] => none
      | e :: cs2 =>
        if e = '"' then consMap '"' (parseStringBody cs2)
        else if e = '\\' then consMap '\\' (parseStringBody cs2)
        else if e = '/' then consMap '/' (parseStringBody cs2)
        else if e = 'b' then consMap (Char.ofNat 8) (parseStringBody cs2)
        else if e = 'f' then consMap (Char.ofNat 12) (parseStringBody cs2)
        else if e = 'n' then consMap (Char.ofNat 10) (parseStringBody cs2)
        else if e = 'r' then consMap (Char.ofNat 13) (parseStringBody cs2)
        else if e = 't' then consMap (Char.ofNat 9) (parseStringBody cs2)
        else if e = 'u' then
          match cs2 with
          | h1 :: h2 :: h3 :: h4 :: cs3 =>
            match parseHexDigit h1, parseHexDigit h2, parseHexDigit h3, parseHexDigit h4 with
            | some a, some b, some c3, some d4 =>
              let n := ((a * 16 + b) * 16 + c3) * 16 + d4
              if 0xD800 ≤ n ∧ n ≤ 0xDFFF then none
              else consMap (Char.ofNat n) (parseStringBody cs3)
            | _, _, _, _ => none
          | _ => none
        else none
    else if c.toNat < 32 then none
    else consMap c (parseStringBody cs)

/-- Decimal digit test. -/
def isDigitC (c : Char) : Bool := 48 ≤ c.toNat && c.toNat ≤ 57

/-- True when the input starts with a decimal digit. -/
def digitStart : List Char → Bool
  | [] => false
  | c :: _ => isDigitC c

/-- True when the input continues a number with a fraction or exponent, which
would make json.loads produce a float (outside the model). -/
def floatStart : List Char → Bool
  | [] => false
  | c :: _ => c = '.' || c = 'e' || c = 'E'

/-- One step of decimal accumulation. -/
def digStep (acc : Nat) (c : Char) : Nat := acc * 10 + (c.toNat - 48)

/-- Consume a maximal run of decimal digits, folding them onto acc. -/
def parseDigitsAux : List Char → Nat → Nat × List Char
  | [], acc => (acc, [])
  | c :: cs, acc => if isDigitC c then parseDigitsAux cs (digStep acc c) else (acc, c :: cs)

/-- An unsigned JSON integer literal: either a lone 0, or a nonzero leading
digit followed by more digits (leading zeros are a syntax error). -/
def parseNat : List Char → Option (Nat × List Char)
  | [] => none
  | c :: r =>
    if c = '0' then (if digitStart r then none else some (0, r))
    else if isDigitC c then some (parseDigitsAux r (c.toNat - 48))
    else none

/-- Leading characters of the literal words null, true and false. -/
def stripPre : List Char → List Char → Option (List Char)
  | [], s => some s
  | _ :: _, [] => none
  | p :: ps, c :: cs => if c = p then stripPre ps cs else none

mutual
/-- Recursive-descent JSON value parser with fuel; returns the value and the
unconsumed input. -/
def parseValue : Nat → List Char → Option (Json × List Char)
  | 0, _ => none
  | fuel + 1, cs =>
    match skipWs cs with
    | [] => none
    | c :: r =>
      if c = 'n' then
        match stripPre ['u', 'l', 'l'] r with
        | some r2 => some (.null, r2)
        | none => none
      else if c = 't' then
        match stripPre ['r', 'u', 'e'] r with
        | some r2 => some (.bool true, r2)
        | none => none
      else if c = 'f' then
        match stripPre ['a', 'l', 's', 'e'] r with
        | some r2 => some (.bool false, r2)
        | none => none
      else if c = '"' then
        match parseStringBody r with
        | some p => some (.str (String.mk p.1), p.2)
        | none => none
      else if c = '-' then
        match parseNat r with
        | some p => if floatStart p.2 then none else some (.num (-(p.1 : Int)), p.2)
        | none => none
      else if isDigitC c then
        match parseNat (c :: r) with
        | some p => if floatStart p.2 then none else some (.num (p.1 : Int), p.2)
        | none => none
      else if c = '[' then
        match skipWs r with
        | [] => none
        | d :: r2 =>
          if d = ']' then some (.arr .nil, r2)
          else
            match parseArrItems fuel (d :: r2) with
            | some p => some (.arr p.1, p.2)
            | none => none
      else if c = '{' then
        match skipWs r with
        | [] => none
        | d :: r2 =>
          if d = '}' then some (.obj .nil, r2)
          else
            match parseObjItems fuel (d :: r2) with
            | some p => some (.obj p.1, p.2)
            | none => none
      else none
/-- Comma-separated values of a nonempty array, up to and including the
closing bracket. -/
def parseArrItems : Nat → List Char → Option (JArr × List Char)
  | 0, _ => none
  | fuel + 1, cs =>
    match parseValue fuel cs with
    | none => none
    | some (v, r) =>
      match skipWs r with
      | [] => none
      | c :: r2 =>
        if c = ',' then
          match parseArrItems fuel r2 with
          | some p => some (.cons v p.1, p.2)
          | none => none
        else if c = ']' then some (.cons v .nil, r2)
        else none
/-- Comma-separated key/value pairs of a nonempty object, up to and including
the closing brace.  Pairs are kept in document order. -/
def parseObjItems : Nat → List Char → Option (JObj × List Char)
  | 0, _ => none
  | fuel + 1, cs =>
    match skipWs cs with
    | [] => none
    | c :: r =>
      if c = '"' then
        match parseStringBody r with
        | none => none
        | some (k, r2) =>
          match skipWs r2 with
          | [] => none
          | c2 :: r3 =>
            if c2 = ':' then
              match parseValue fuel r3 with
              | none => none
              | some (v, r4) =>
                match skipWs r4 with
                | [] => none
                | c3 :: r5 =>
                  if c3 = ',' then
                    match parseObjItems fuel r5 with
                    | some p => some (.cons (String.mk k) v p.1, p.2)
                    | none => none
                  else if c3 = '}' then some (.cons (String.mk k) v .nil, r5)
                  else none
            else none
      else none
end

/-- json.loads on a whole text: parse one value and require that only
whitespace follows it. -/
def json_loads (s : List Char) : Option Json :=
  match parseValue (2 * s.length + 2) s with
  | some (v, rest) => if skipWs rest = [] then some v else none
  | none => none

theorem json_loads_smoke :
    json_loads ['[', '\n', ' ', ' ', ' ', ' ', 'n', 'u', 'l', 'l', '\n', ']', '\n'] =
      some (Json.arr (.cons .null .nil)) := rfl

/-! ## The validation pipeline of validate.py -/

/-- The two process-wide defect counters. -/
structure GState where
  formatting_errors : Nat
  validation_errors : Nat
deriving DecidableEq

/-- Increment the formatting-defect counter. -/
def bumpF (st : GState) : GState :=
  GState.mk (st.formatting_errors + 1) st.validation_errors

/-- Increment the validation-defect counter. -/
def bumpV (st : GState) : GState :=
  GState.mk st.formatting_errors (st.validation_errors + 1)

/-- Raw content of a file on disk: either bytes that decode as UTF-8 to the
given text, or bytes on which decoding raises UnicodeDecodeError. -/
inductive RawFile where
  | text (chars : List Char) : RawFile
  | undecodable : RawFile

/-- Python exceptions that escape their function, and sys.exit on an
environment error. -/
inductive PyErr where
  | keyError : PyErr
  | typeError : PyErr
  | attributeError : PyErr
  | ioError : PyErr
  | sysExit : PyErr
deriving DecidableEq

/-- The run's environment: command-line flag, file contents (none stands for a
missing or unreadable file) and the jsonschema capability. -/
structure Env where
  fix_formatting : Bool
  cyclesFile : Option RawFile
  packsFile : Option RawFile
  cycleSchemaFile : Option RawFile
  packSchemaFile : Option RawFile
  cardSchemaFile : Option RawFile
  packFiles : Json → Option RawFile
  draft4Ok : Json → Bool
  schemaValidate : Json → Json → Bool

/-- load_json_file: read and decode the file, parse it as JSON (a ValueError
from either step is caught: one validation defect, absent result), then
compare the canonical re-serialization with the raw text and count a
formatting defect on mismatch.  A missing file makes open() raise IOError,
which the except ValueError clause does not catch.  The parsed document is
returned whatever the formatting outcome; the fix_formatting rewrite is an
external side effect. -/
def load_json_file (file : Option RawFile) (st : GState) :
    Except PyErr (Option Json × GState) :=
  match file with
  | none => .error .ioError
  | some .undecodable => .ok (none, bumpV st)
  | some (.text s) =>
    match json_loads s with
    | none => .ok (none, bumpV st)
    | some j => if format_json j = s then .ok (some j, st) else .ok (some j, bumpF st)

/-- check_json_schema: Draft4Validator.check_schema, counting one validation
defect when the schema document is not itself a valid Draft 4 schema. -/
def check_json_schema (draft4Ok : Json → Bool) (schema : Json) (st : GState) :
    Bool × GState :=
  if draft4Ok schema then (true, st) else (false, bumpV st)

/-- Python d[k] on a parsed document: KeyError when the key is missing,
TypeError when the value is not a dict.  On the (non-Python-value) documents
where a key occurs twice, the later pair wins, as in dict construction. -/
def lookupField : JObj → String → Option Json
  | .nil, _ => none
  | .cons k2 v tl, k =>
    match lookupField tl k with
    | some v2 => some v2
    | none => if k2 = k then some v else none

/-- Python subscription j[k] with a string key. -/
def getItem (j : Json) (k : String) : Except PyErr Json :=
  match j with
  | .obj fields =>
    match lookupField fields k with
    | some v => .ok v
    | none => .error .keyError
  | _ => .error .typeError

/-- Python j.get(k): None when the key is missing, but an AttributeError when
j is not a dict at all (null, numbers, strings and lists have no .get). -/
def pyGet (j : Json) (k : String) : Except PyErr (Option Json) :=
  match j with
  | .obj fields => .ok (lookupField fields k)
  | _ => .error .attributeError

/-- Conversion of a JArr to a Lean list. -/
def jarrToList : JArr → List Json
  | .nil => []
  | .cons h t => h :: jarrToList t

/-- Python iteration over a loaded document: None raises TypeError; iteration
over a non-list value is collapsed to TypeError as well (the pipeline only
ever iterates values it has checked with isinstance(x, list)). -/
def pyIterOpt : Option Json → Except PyErr (List Json)
  | none => .error .typeError
  | some (.arr items) => .ok (jarrToList items)
  | some _ => .error .typeError

/-- Elements of a loaded document already checked with isinstance(x, list). -/
def optItems : Option Json → List Json
  | some (.arr items) => jarrToList items
  | _ => []

/-- Python membership x in xs, testing equality with each element. -/
def jmem (x : Json) : List Json → Bool
  | [] => false
  | y :: l => if y = x then true else jmem x l

/-- The list comprehension of custom_pack_check: the code of every cycle. -/
def getCodes : List Json → Except PyErr (List Json)
  | [] => .ok []
  | c :: rest =>
    match getItem c "code" with
    | .ok v =>
      match getCodes rest with
      | .ok vs => .ok (v :: vs)
      | .error e => .error e
    | .error e => .error e

/-- custom_pack_check: raise a ValidationError (ok false) when the pack's
cycle_code is not the code of any cycle; building the error message reads
pack["code"].  Evaluation order follows the source: pack["cycle_code"] first,
then the list comprehension over cycles_data. -/
def custom_pack_check (pack : Json) (cycles_data : Option Json) : Except PyErr Bool :=
  match getItem pack "cycle_code" with
  | .error e => .error e
  | .ok cc =>
    match pyIterOpt cycles_data with
    | .error e => .error e
    | .ok cycles =>
      match getCodes cycles with
      | .error e => .error e
      | .ok codes =>
        if jmem cc codes then .ok true
        else
          match getItem pack "code" with
          | .error e => .error e
          | .ok _ => .ok false

/-- custom_card_check: raise a ValidationError (ok false) when the card's
pack_code differs from the containing pack's code; building the error message
reads card["code"]. -/
def custom_card_check (card : Json) (pack_code : Json) : Except PyErr Bool :=
  match getItem card "pack_code" with
  | .error e => .error e
  | .ok pc =>
    if pc = pack_code then .ok true
    else
      match getItem card "code" with
      | .error e => .error e
      | .ok _ => .ok false

/-- validate_card: the verbose progress line evaluates card["name"] whatever
the verbosity; then jsonschema.validate and custom_card_check, a
ValidationError from either being caught and counted (the except block itself
only uses card.get, which cannot raise). -/
def validate_card (env : Env) (card_schema : Json) (card : Json) (pack_code : Json)
    (st : GState) : Except PyErr GState :=
  match getItem card "name" with
  | .error e => .error e
  | .ok _ =>
    if env.schemaValidate card card_schema then
      match custom_card_check card pack_code with
      | .error e => .error e
      | .ok true => .ok st
      | .ok false => .ok (bumpV st)
    else .ok (bumpV st)

/-- Per-cycle loop of validate_cycles: the progress line evaluates
c.get("name") eagerly, whatever the verbosity, inside the try block — an
uncaught AttributeError for a non-dict cycle.  Each schema violation is then
counted and clears the return flag, later cycles are still validated (the
except block's own c.get calls are on a dict, so they cannot raise; cycles
have no custom check). -/
def cyclesLoop (env : Env) (schema : Json) :
    List Json → GState → Bool → Except PyErr (Bool × GState)
  | [], st, retval => .ok (retval, st)
  | c :: rest, st, retval =>
    match pyGet c "name" with
    | .error e => .error e
    | .ok _ =>
      if env.schemaValidate c schema then cyclesLoop env schema rest st retval
      else cyclesLoop env schema rest (bumpV st) false

/-- validate_cycles: load the cycle schema, require the cycle index to be a
list, require the schema document to be truthy and a valid Draft 4 schema,
then validate each cycle. -/
def validate_cycles (env : Env) (cycles_data : Option Json) (st : GState) :
    Except PyErr (Bool × GState) :=
  match load_json_file env.cycleSchemaFile st with
  | .error e => .error e
  | .ok (cycleSchemaOpt, st1) =>
    if pyIsList cycles_data then
      if pyTruthyOpt cycleSchemaOpt then
        match cycleSchemaOpt with
        | some schema =>
          match check_json_schema env.draft4Ok schema st1 with
          | (true, st2) => cyclesLoop env schema (optItems cycles_data) st2 true
          | (false, st2) => .ok (false, st2)
        | none => .ok (false, st1)
      else .ok (false, st1)
    else .ok (false, st1)

/-- Per-pack loop of validate_packs: the progress line evaluates
p.get("name") eagerly inside the try block (an uncaught AttributeError for a
non-dict pack), then jsonschema.validate and custom_pack_check, a
ValidationError from either being caught and counted. -/
def packsLoop (env : Env) (schema : Json) (cycles_data : Option Json) :
    List Json → GState → Bool → Except PyErr (Bool × GState)
  | [], st, retval => .ok (retval, st)
  | p :: rest, st, retval =>
    match pyGet p "name" with
    | .error e => .error e
    | .ok _ =>
      if env.schemaValidate p schema then
        match custom_pack_check p cycles_data with
        | .error e => .error e
        | .ok true => packsLoop env schema cycles_data rest st retval
        | .ok false => packsLoop env schema cycles_data rest (bumpV st) false
      else packsLoop env schema cycles_data rest (bumpV st) false

/-- validate_packs: load the pack schema, require the pack index to be a list,
require the schema document to be truthy and a valid Draft 4 schema, then
validate each pack, including the pack/cycle cross-check. -/
def validate_packs (env : Env) (packs_data : Option Json) (cycles_data : Option Json)
    (st : GState) : Except PyErr (Bool × GState) :=
  match load_json_file env.packSchemaFile st with
  | .error e => .error e
  | .ok (packSchemaOpt, st1) =>
    if pyIsList packs_data then
      if pyTruthyOpt packSchemaOpt then
        match packSchemaOpt with
        | some schema =>
          match check_json_schema env.draft4Ok schema st1 with
          | (true, st2) => packsLoop env schema cycles_data (optItems packs_data) st2 true
          | (false, st2) => .ok (false, st2)
        | none => .ok (false, st1)
      else .ok (false, st1)
    else .ok (false, st1)

/-- load_cycles: load cycles.json and validate it; an absent or invalid result
becomes None. -/
def load_cycles (env : Env) (st : GState) : Except PyErr (Option Json × GState) :=
  match load_json_file env.cyclesFile st with
  | .error e => .error e
  | .ok (cycles_data, st1) =>
    match validate_cycles env cycles_data st1 with
    | .error e => .error e
    | .ok (true, st2) => .ok (cycles_data, st2)
    | .ok (false, st2) => .ok (none, st2)

/-- The final loop of load_pack_index: every declared pack file must exist and
be readable, otherwise check_file_access calls sys.exit; reading p["code"] can
raise KeyError. -/
def checkPackFiles (env : Env) : List Json → Except PyErr Unit
  | [] => .ok ()
  | p :: rest =>
    match getItem p "code" with
    | .error e => .error e
    | .ok code =>
      match env.packFiles code with
      | some _ => checkPackFiles env rest
      | none => .error .sysExit

/-- load_pack_index: load packs.json, validate it against the pack schema and
the cycle cross-reference, then require every declared pack file to be
present. -/
def load_pack_index (env : Env) (cycles_data : Option Json) (st : GState) :
    Except PyErr (Option Json × GState) :=
  match load_json_file env.packsFile st with
  | .error e => .error e
  | .ok (packs_data, st1) =>
    match validate_packs env packs_data cycles_data st1 with
    | .error e => .error e
    | .ok (false, st2) => .ok (none, st2)
    | .ok (true, st2) =>
      match pyIterOpt packs_data with
      | .error e => .error e
      | .ok ps =>
        match checkPackFiles env ps with
        | .error e => .error e
        | .ok _ => .ok (packs_data, st2)

/-- Per-card loop of validate_cards for one pack's card list. -/
def cardsLoop (env : Env) (schema : Json) (pack_code : Json) :
    List Json → GState → Except PyErr GState
  | [], st => .ok st
  | card :: rest, st =>
    match validate_card env schema card pack_code st with
    | .error e => .error e
    | .ok st1 => cardsLoop env schema pack_code rest st1

/-- Per-pack loop of validate_cards: the progress line evaluates p["name"],
the pack path uses p["code"], the pack file is loaded (a falsy document skips
the pack, keeping whatever defects the loader counted), then every card is
validated. -/
def cardsPacksLoop (env : Env) (schema : Json) :
    List Json → GState → Except PyErr GState
  | [], st => .ok st
  | p :: rest, st =>
    match getItem p "name" with
    | .error e => .error e
    | .ok _ =>
      match getItem p "code" with
      | .error e => .error e
      | .ok code =>
        match load_json_file (env.packFiles code) st with
        | .error e => .error e
        | .ok (pack_data, st1) =>
          if pyTruthyOpt pack_data then
            match pyIterOpt pack_data with
            | .error e => .error e
            | .ok cards =>
              match cardsLoop env schema code cards st1 with
              | .error e => .error e
              | .ok st2 => cardsPacksLoop env schema rest st2
          else cardsPacksLoop env schema rest st1

/-- validate_cards: load the card schema once; a falsy or invalid schema
document abandons card validation (the latter after one defect); otherwise
every pack's cards are validated. -/
def validate_cards (env : Env) (packs_data : Json) (st : GState) :
    Except PyErr GState :=
  match load_json_file env.cardSchemaFile st with
  | .error e => .error e
  | .ok (cardSchemaOpt, st1) =>
    if pyTruthyOpt cardSchemaOpt then
      match cardSchemaOpt with
      | some schema =>
        match check_json_schema env.draft4Ok schema st1 with
        | (true, st2) =>
          match pyIterOpt (some packs_data) with
          | .error e => .error e
          | .ok ps => cardsPacksLoop env schema ps st2
        | (false, st2) => .ok st2
      | none => .ok st1
    else .ok st1

/-- The summary line printed at the end of every completed run. -/
def summaryLine (st : GState) : String :=
  "Found " ++ toString st.formatting_errors ++ " formatting and " ++
    toString st.validation_errors ++ " validation errors\n"

/-- main: reset the counters, run the three stages (cards only when the pack
index stage produced a truthy value), then print the summary and exit 0
exactly when both counters are zero.  The ok result carries the exit code,
the final counters and the printed summary; error carries an uncaught
exception or a sys.exit abort.  The source function is called main; that name
is reserved by Lean for executable entry points, hence pymain. -/
def pymain (env : Env) : Except PyErr (Nat × GState × String) :=
  match load_cycles env (GState.mk 0 0) with
  | .error e => .error e
  | .ok (cycles, st1) =>
    match load_pack_index env cycles st1 with
    | .error e => .error e
    | .ok (packs, st2) =>
      match (if pyTruthyOpt packs then
               match packs with
               | some pj => validate_cards env pj st2
               | none => .ok st2
             else .ok st2) with
      | .error e => .error e
      | .ok st3 =>
        .ok ((if st3.formatting_errors = 0 ∧ st3.validation_errors = 0 then 0 else 1),
          st3, summaryLine st3)

/-! ## Claims about the loader and the pipeline -/

/-- C3: a file whose bytes fail UTF-8 decoding or fail to parse as JSON makes
load_json_file count exactly one validation defect, leave the formatting
counter unchanged, return an absent document, and return normally (no
exception escapes). -/
theorem load_json_file_parse_failure (st : GState) (file : Option RawFile)
    (h : file = some .undecodable ∨ ∃ s, file = some (.text s) ∧ json_loads s = none) :
    load_json_file file st = .ok (none, bumpV st) ∧
      (bumpV st).formatting_errors = st.formatting_errors ∧
      (bumpV st).validation_errors = st.validation_errors + 1 := by
  rcases h with h | ⟨s, hf, hp⟩
  · subst h
    exact ⟨rfl, rfl, rfl⟩
  · subst hf
    simp [load_json_file, hp, bumpV]

theorem load_json_file_parse_failure_witness :
    load_json_file (some .undecodable) (GState.mk 0 0) = .ok (none, bumpV (GState.mk 0 0)) ∧
      (bumpV (GState.mk 0 0)).formatting_errors = (GState.mk 0 0).formatting_errors ∧
      (bumpV (GState.mk 0 0)).validation_errors = (GState.mk 0 0).validation_errors + 1 :=
  load_json_file_parse_failure (GState.mk 0 0) (some .undecodable) (Or.inl rfl)

/-- C9: a file that parses successfully is returned by load_json_file whatever
the formatting comparison said, and when the raw text already equals its
canonical form the whole state, in particular the formatting-defect counter,
is unchanged. -/
theorem load_json_file_returns_parsed (st : GState) (s : List Char) (j : Json)
    (h : json_loads s = some j) :
    load_json_file (some (.text s)) st =
        .ok (some j, if format_json j = s then st else bumpF st) ∧
      (format_json j = s → load_json_file (some (.text s)) st = .ok (some j, st)) := by
  constructor
  · by_cases hf : format_json j = s <;> simp [load_json_file, h, hf]
  · intro hf
    simp [load_json_file, h, hf]

theorem load_json_file_returns_parsed_witness :
    load_json_file (some (.text ['n', 'u', 'l', 'l', '\n'])) (GState.mk 2 3) =
        .ok (some Json.null,
          if format_json Json.null = ['n', 'u', 'l', 'l', '\n'] then GState.mk 2 3
          else bumpF (GState.mk 2 3)) ∧
      (format_json Json.null = ['n', 'u', 'l', 'l', '\n'] →
        load_json_file (some (.text ['n', 'u', 'l', 'l', '\n'])) (GState.mk 2 3) =
          .ok (some Json.null, GState.mk 2 3)) :=
  load_json_file_returns_parsed (GState.mk 2 3) ['n', 'u', 'l', 'l', '\n'] Json.null rfl

/-- A successful subscription tells the value was a dict. -/
theorem getItem_ok_obj (j : Json) (k : String) (v : Json) (h : getItem j k = .ok v) :
    ∃ fields, j = .obj fields := by
  cases j with
  | obj fields => exact ⟨fields, rfl⟩
  | null => simp [getItem] at h
  | bool b => simp [getItem] at h
  | num n => simp [getItem] at h
  | str s => simp [getItem] at h
  | arr items => simp [getItem] at h

/-- C5: a pack whose cycle_code is the code of no cycle in the loaded cycle
list gets exactly one validation defect recorded by the pack loop and clears
the return flag, whether or not jsonschema.validate accepted the pack: a
failing schema validation is caught and counted, a passing one lets
custom_pack_check raise the counted ValidationError naming the pack's code.
Such a pack is a dict (it has the cycle_code and code entries), so the eager
p.get("name") of the progress line returns normally. -/
theorem packsLoop_cross_check_defect (env : Env) (schema : Json)
    (cycles_data : Option Json) (p : Json) (rest : List Json) (st : GState) (retval : Bool)
    (cc : Json) (cycles : List Json) (codes : List Json) (pcode : Json)
    (h1 : getItem p "cycle_code" = .ok cc)
    (h2 : pyIterOpt cycles_data = .ok cycles)
    (h3 : getCodes cycles = .ok codes)
    (h4 : jmem cc codes = false)
    (h5 : getItem p "code" = .ok pcode) :
    packsLoop env schema cycles_data (p :: rest) st retval =
      packsLoop env schema cycles_data rest (bumpV st) false := by
  obtain ⟨pf, rfl⟩ := getItem_ok_obj p "cycle_code" cc h1
  have hcustom : custom_pack_check (Json.obj pf) cycles_data = .ok false := by
    simp [custom_pack_check, h1, h2, h3, h4, h5]
  by_cases hv : env.schemaValidate (Json.obj pf) schema <;>
    simp [packsLoop, pyGet, hv, hcustom]

/-- C6: a card carrying a pack_code different from the code of the pack file
it was read from gets exactly one validation defect from validate_card,
whether or not jsonschema.validate accepted the card: a schema violation is
caught and counted, and a schema pass lets custom_card_check raise the
counted ValidationError naming both codes and the card's own code.  The
name and code fields are read eagerly for the progress and error text. -/
theorem validate_card_cross_check_defect (env : Env) (schema : Json) (card : Json)
    (pack_code : Json) (st : GState) (nm ccode pc : Json)
    (h1 : getItem card "name" = .ok nm)
    (h2 : getItem card "pack_code" = .ok pc)
    (h3 : pc ≠ pack_code)
    (h4 : getItem card "code" = .ok ccode) :
    validate_card env schema card pack_code st = .ok (bumpV st) := by
  have hcustom : custom_card_check card pack_code = .ok false := by
    simp [custom_card_check, h2, h3, h4]
  by_cases hv : env.schemaValidate card schema <;> simp [validate_card, h1, hcustom, hv]

/-- C7: a pack schema document that parses (to a truthy value) but fails the
Draft 4 self-check makes validate_packs record exactly one validation defect,
return False without validating a single pack, and so leave the pack index
reported as unvalidated upstream. -/
theorem validate_packs_invalid_schema (env : Env) (packs_data cycles_data : Option Json)
    (st st1 : GState) (schema : Json)
    (h1 : load_json_file env.packSchemaFile st = .ok (some schema, st1))
    (h2 : pyTruthy schema = true)
    (h3 : env.draft4Ok schema = false)
    (h4 : pyIsList packs_data = true) :
    validate_packs env packs_data cycles_data st = .ok (false, bumpV st1) ∧
      st1.validation_errors = st.validation_errors := by
  constructor
  · simp [validate_packs, h1, h4, pyTruthyOpt, h2, check_json_schema, h3]
  · unfold load_json_file at h1
    cases hfile : env.packSchemaFile with
    | none => rw [hfile] at h1; simp at h1
    | some raw =>
      rw [hfile] at h1
      cases raw with
      | undecodable => simp at h1
      | text s =>
        cases hp : json_loads s with
        | none => simp [hp] at h1
        | some j =>
          simp [hp] at h1
          by_cases hf : format_json j = s
          · simp [hf] at h1
            rw [← h1.2]
          · simp [hf] at h1
            rw [← h1.2, bumpF]

/-- C8: with a healthy cycle schema, a two-cycle list holding one
schema-invalid and one schema-valid cycle yields exactly one extra validation
defect, in whichever order the two appear: the invalid cycle is counted, the
valid one is still validated and accepted.  Both cycles are dicts, as the
data model prescribes: for a non-dict entry, the progress line's eager
c.get("name") would abort the run with an AttributeError before any
validation, so the per-item counting behaviour is a property of dict-shaped
cycles. -/
theorem validate_cycles_bad_and_good (env : Env) (st st1 : GState) (schema : Json)
    (bf gf : JObj)
    (h1 : load_json_file env.cycleSchemaFile st = .ok (some schema, st1))
    (h2 : pyTruthy schema = true)
    (h3 : env.draft4Ok schema = true)
    (hbad : env.schemaValidate (.obj bf) schema = false)
    (hgood : env.schemaValidate (.obj gf) schema = true) :
    validate_cycles env (some (.arr (.cons (.obj bf) (.cons (.obj gf) .nil)))) st =
        .ok (false, bumpV st1) ∧
      validate_cycles env (some (.arr (.cons (.obj gf) (.cons (.obj bf) .nil)))) st =
        .ok (false, bumpV st1) := by
  constructor <;>
    simp [validate_cycles, h1, pyIsList, pyTruthyOpt, h2, check_json_schema, h3,
      optItems, jarrToList, cyclesLoop, pyGet, hbad, hgood]

/-- C10: a schema document that parses to a falsy value (such as the empty
object, a permissive but falsy Draft 4 schema) short-circuits the dependent
stage exactly like a failed load: validate_cycles and validate_packs return
False and validate_cards returns, each with the state it had after the schema
load, so no item is validated and no defect is recorded for the skip. -/
theorem falsy_schema_skips_stage (env : Env) (cycles_data packs_data : Option Json)
    (packsJ : Json) (st : GState) (schema1 schema2 schema3 : Json) (st1 st2 st3 : GState)
    (hc1 : load_json_file env.cycleSchemaFile st = .ok (some schema1, st1))
    (hc2 : pyTruthy schema1 = false)
    (hc3 : pyIsList cycles_data = true)
    (hp1 : load_json_file env.packSchemaFile st = .ok (some schema2, st2))
    (hp2 : pyTruthy schema2 = false)
    (hp3 : pyIsList packs_data = true)
    (hk1 : load_json_file env.cardSchemaFile st = .ok (some schema3, st3))
    (hk2 : pyTruthy schema3 = false) :
    validate_cycles env cycles_data st = .ok (false, st1) ∧
      validate_packs env packs_data cycles_data st = .ok (false, st2) ∧
      validate_cards env packsJ st = .ok st3 := by
  refine ⟨?_, ?_, ?_⟩
  · simp [validate_cycles, hc1, hc3, pyTruthyOpt, hc2]
  · simp [validate_packs, hp1, hp3, pyTruthyOpt, hp2]
  · simp [validate_cards, hk1, pyTruthyOpt, hk2]

/-- C1: a run of main that completes normally exits with code 0 exactly when
both counters are zero, and the summary line it has printed carries those two
totals. -/
theorem pymain_exit_code (env : Env) (code : Nat) (st : GState) (s : String)
    (h : pymain env = .ok (code, st, s)) :
    (code = 0 ↔ st.formatting_errors = 0 ∧ st.validation_errors = 0) ∧
      s = summaryLine st := by
  unfold pymain at h
  split at h
  · simp at h
  · split at h
    · simp at h
    · split at h
      · simp at h
      · simp only [Except.ok.injEq, Prod.mk.injEq] at h
        obtain ⟨hcode, hst, hs⟩ := h
        subst hst
        subst hs
        subst hcode
        rename_i st3 heq
        by_cases hz : st3.formatting_errors = 0 ∧ st3.validation_errors = 0 <;>
          simp [hz]

/-! ## Concrete runs used to witness the theorems -/

/-- A one-character schema file whose document is the truthy number 1, already
in canonical formatting. -/
def rawOne : RawFile := .text ['1', '\n']

/-- A schema file whose document is the falsy empty object, already in
canonical formatting. -/
def rawEmptyObj : RawFile := .text ['{', '}', '\n']

/-- An environment whose index and schema files are all undecodable. -/
def envW1 : Env :=
  Env.mk false (some .undecodable) (some .undecodable) (some .undecodable)
    (some .undecodable) (some .undecodable) (fun _ => none) (fun _ => true)
    (fun _ _ => true)

/-- An environment that never touches the file system or the validator. -/
def envAny : Env :=
  Env.mk false none none none none none (fun _ => none) (fun _ => true) (fun _ _ => true)

/-- An environment whose pack schema parses but fails the Draft 4 self-check. -/
def envBadSchema : Env :=
  Env.mk false none none none (some rawOne) none (fun _ => none) (fun _ => false)
    (fun _ _ => true)

/-- An environment whose cycle schema is healthy and whose validator accepts
exactly the truthy documents. -/
def envTruthyVal : Env :=
  Env.mk false none none (some rawOne) none none (fun _ => none) (fun _ => true)
    (fun c _ => pyTruthy c)

/-- An environment whose three schema documents are all falsy. -/
def envFalsySchema : Env :=
  Env.mk false none none (some rawEmptyObj) (some rawEmptyObj) (some rawEmptyObj)
    (fun _ => none) (fun _ => true) (fun _ _ => true)

/-- A pack index holding one schema-conformant pack with an unmatched
cycle_code. -/
def packsDocC : Json :=
  .arr (.cons (.obj (.cons "cycle_code" (.str "a") .nil)) .nil)

/-- An environment where cycles.json is undecodable (so cycle loading fails
and None flows into stage 2) while packs.json holds one pack that passes the
(permissive) schema validation. -/
def envNoneCycles : Env :=
  Env.mk false (some .undecodable) (some (.text (format_json packsDocC))) (some rawOne)
    (some rawOne) (some rawOne) (fun _ => none) (fun _ => true) (fun _ _ => true)

theorem pymain_exit_code_witness :
    ((1 : Nat) = 0 ↔
        (GState.mk 0 4).formatting_errors = 0 ∧ (GState.mk 0 4).validation_errors = 0) ∧
      summaryLine (GState.mk 0 4) = summaryLine (GState.mk 0 4) :=
  pymain_exit_code envW1 1 (GState.mk 0 4) (summaryLine (GState.mk 0 4)) rfl

theorem packsLoop_cross_check_defect_witness :
    packsLoop envAny (Json.num 1)
        (some (.arr (.cons (.obj (.cons "code" (.str "c1") .nil)) .nil)))
        (Json.obj (.cons "cycle_code" (.str "x") (.cons "code" (.str "p1") .nil)) :: [])
        (GState.mk 0 0) true =
      packsLoop envAny (Json.num 1)
        (some (.arr (.cons (.obj (.cons "code" (.str "c1") .nil)) .nil)))
        [] (bumpV (GState.mk 0 0)) false :=
  packsLoop_cross_check_defect envAny (Json.num 1)
    (some (.arr (.cons (.obj (.cons "code" (.str "c1") .nil)) .nil)))
    (Json.obj (.cons "cycle_code" (.str "x") (.cons "code" (.str "p1") .nil))) []
    (GState.mk 0 0) true (Json.str "x") [.obj (.cons "code" (.str "c1") .nil)]
    [Json.str "c1"] (Json.str "p1") rfl rfl rfl rfl rfl

theorem validate_card_cross_check_defect_witness :
    validate_card envAny (Json.num 1)
        (Json.obj (.cons "name" (.str "NameX")
          (.cons "code" (.str "c01") (.cons "pack_code" (.str "other") .nil))))
        (Json.str "core") (GState.mk 2 3) = .ok (bumpV (GState.mk 2 3)) :=
  validate_card_cross_check_defect envAny (Json.num 1)
    (Json.obj (.cons "name" (.str "NameX")
      (.cons "code" (.str "c01") (.cons "pack_code" (.str "other") .nil))))
    (Json.str "core") (GState.mk 2 3) (Json.str "NameX") (Json.str "c01")
    (Json.str "other") rfl rfl (by decide) rfl

theorem validate_packs_invalid_schema_witness :
    validate_packs envBadSchema (some (.arr .nil)) none (GState.mk 0 0) =
        .ok (false, bumpV (GState.mk 0 0)) ∧
      (GState.mk 0 0).validation_errors = (GState.mk 0 0).validation_errors :=
  validate_packs_invalid_schema envBadSchema (some (.arr .nil)) none (GState.mk 0 0)
    (GState.mk 0 0) (Json.num 1) rfl rfl rfl rfl

theorem validate_cycles_bad_and_good_witness :
    validate_cycles envTruthyVal
        (some (.arr (.cons (.obj .nil)
          (.cons (.obj (.cons "name" (.str "x") .nil)) .nil))))
        (GState.mk 0 0) = .ok (false, bumpV (GState.mk 0 0)) ∧
      validate_cycles envTruthyVal
        (some (.arr (.cons (.obj (.cons "name" (.str "x") .nil))
          (.cons (.obj .nil) .nil))))
        (GState.mk 0 0) = .ok (false, bumpV (GState.mk 0 0)) :=
  validate_cycles_bad_and_good envTruthyVal (GState.mk 0 0) (GState.mk 0 0) (Json.num 1)
    .nil (.cons "name" (.str "x") .nil) rfl rfl rfl rfl rfl

theorem falsy_schema_skips_stage_witness :
    validate_cycles envFalsySchema (some (.arr .nil)) (GState.mk 0 0) =
        .ok (false, GState.mk 0 0) ∧
      validate_packs envFalsySchema (some (.arr .nil)) (some (.arr .nil)) (GState.mk 0 0) =
        .ok (false, GState.mk 0 0) ∧
      validate_cards envFalsySchema (Json.arr .nil) (GState.mk 0 0) =
        .ok (GState.mk 0 0) :=
  falsy_schema_skips_stage envFalsySchema (some (.arr .nil)) (some (.arr .nil))
    (Json.arr .nil) (GState.mk 0 0) (Json.obj .nil) (Json.obj .nil) (Json.obj .nil)
    (GState.mk 0 0) (GState.mk 0 0) (GState.mk 0 0) rfl rfl rfl rfl rfl rfl rfl rfl

/-- C4 counterexample: a run where cycle loading fails, None flows into stage
2, the pack index loads and its first pack passes schema validation; the
pack/cycle cross-check then aborts the whole run with an uncaught TypeError
(iterating None) instead of treating the absent cycles as an empty reference
set. -/
theorem pymain_none_cycles_typeerror : pymain envNoneCycles = .error .typeError := rfl

/-- C4 amended: with None cycles, pack-index validation still runs (the pack
schema is loaded and self-checked, per-pack schema validation executes), but
the cross-check does not degrade to an empty reference set: the first pack
that passes schema validation makes custom_pack_check iterate None, and the
resulting TypeError escapes validate_packs uncaught. -/
theorem validate_packs_none_cycles_typeerror (env : Env) (packs_data : Option Json)
    (st st1 : GState) (schema p : Json) (rest : List Json) (cc : Json)
    (h1 : load_json_file env.packSchemaFile st = .ok (some schema, st1))
    (h2 : pyTruthy schema = true)
    (h3 : env.draft4Ok schema = true)
    (h4 : pyIsList packs_data = true)
    (h5 : optItems packs_data = p :: rest)
    (h6 : env.schemaValidate p schema = true)
    (h7 : getItem p "cycle_code" = .ok cc) :
    validate_packs env packs_data none st = .error .typeError := by
  obtain ⟨pf, rfl⟩ := getItem_ok_obj p "cycle_code" cc h7
  simp [validate_packs, h1, h4, pyTruthyOpt, h2, check_json_schema, h3, h5, packsLoop,
    pyGet, h6, custom_pack_check, h7, pyIterOpt]

theorem validate_packs_none_cycles_typeerror_witness :
    validate_packs envNoneCycles (some packsDocC) none (GState.mk 0 1) =
      .error .typeError :=
  validate_packs_none_cycles_typeerror envNoneCycles (some packsDocC) (GState.mk 0 1)
    (GState.mk 0 1) (Json.num 1) (.obj (.cons "cycle_code" (.str "a") .nil)) []
    (Json.str "a") rfl rfl rfl rfl rfl rfl rfl

/-! ## Round-trip lemmas: parsing a canonical serialization -/

/-- A character that opens no JSON token is not whitespace if it is a digit. -/
theorem not_ws_of_digit (c : Char) (h : isDigitC c = true) : isWs c = false := by
  have hb : 48 ≤ c.toNat ∧ c.toNat ≤ 57 := by
    simpa [isDigitC, Bool.and_eq_true, decide_eq_true_eq] using h
  have hs : c ≠ ' ' := fun e => by rw [e] at hb; exact absurd hb (by decide)
  have ht : c ≠ '\t' := fun e => by rw [e] at hb; exact absurd hb (by decide)
  have hn : c ≠ '\n' := fun e => by rw [e] at hb; exact absurd hb (by decide)
  have hr : c ≠ '\r' := fun e => by rw [e] at hb; exact absurd hb (by decide)
  simp [isWs, hs, ht, hn, hr]

/-- A digit differs from any character that is itself no digit. -/
theorem digit_ne (c c0 : Char) (h : isDigitC c = true) (h0 : isDigitC c0 = false) :
    c ≠ c0 := by
  intro e
  rw [e, h0] at h
  cases h

theorem skipWs_nil : skipWs [] = [] := rfl

theorem skipWs_cons_ws (c : Char) (cs : List Char) (h : isWs c = true) :
    skipWs (c :: cs) = skipWs cs := by
  simp [skipWs, h]

theorem skipWs_cons_not_ws (c : Char) (cs : List Char) (h : isWs c = false) :
    skipWs (c :: cs) = c :: cs := by
  simp [skipWs, h]

theorem skipWs_leading_ws (pre : List Char) (cs : List Char)
    (h : ∀ c ∈ pre, isWs c = true) : skipWs (pre ++ cs) = skipWs cs := by
  induction pre with
  | nil => rfl
  | cons c rest ih =>
    have hc : isWs c = true := h c (List.mem_cons_self c rest)
    have hrest : ∀ c2 ∈ rest, isWs c2 = true := fun c2 hm => h c2 (List.mem_cons_of_mem c hm)
    simp only [List.cons_append]
    rw [skipWs_cons_ws c _ hc, ih hrest]

/-- The indentation block is all whitespace. -/
theorem indent_all_ws (d : Nat) : ∀ c ∈ '\n' :: indentChars d, isWs c = true := by
  intro c hm
  rcases List.mem_cons.mp hm with h | h
  · subst h; rfl
  · have : c = ' ' := (List.eq_of_mem_replicate (by simpa [indentChars] using h))
    subst this; rfl

theorem skipWs_nl_indent (d : Nat) (cs : List Char) :
    skipWs ('\n' :: (indentChars d ++ cs)) = skipWs cs := by
  have := skipWs_leading_ws ('\n' :: indentChars d) cs (indent_all_ws d)
  simpa using this

/-- parseValue starts by skipping whitespace, so a leading whitespace block is
irrelevant. -/
theorem parseValue_leading_ws (fuel : Nat) (pre cs : List Char)
    (h : ∀ c ∈ pre, isWs c = true) :
    parseValue fuel (pre ++ cs) = parseValue fuel cs := by
  cases fuel with
  | zero => rfl
  | succ f =>
    simp only [parseValue]
    rw [skipWs_leading_ws pre cs h]

theorem parseArrItems_leading_ws (fuel : Nat) (pre cs : List Char)
    (h : ∀ c ∈ pre, isWs c = true) :
    parseArrItems fuel (pre ++ cs) = parseArrItems fuel cs := by
  cases fuel with
  | zero => rfl
  | succ f =>
    simp only [parseArrItems]
    rw [parseValue_leading_ws f pre cs h]

theorem parseObjItems_leading_ws (fuel : Nat) (pre cs : List Char)
    (h : ∀ c ∈ pre, isWs c = true) :
    parseObjItems fuel (pre ++ cs) = parseObjItems fuel cs := by
  cases fuel with
  | zero => rfl
  | succ f =>
    simp only [parseObjItems]
    rw [skipWs_leading_ws pre cs h]

/-- Unfolding of parseValue on the null literal. -/
theorem parseValue_null (fuel : Nat) (rest : List Char) :
    parseValue (fuel + 1) ('n' :: 'u' :: 'l' :: 'l' :: rest) = some (.null, rest) := rfl

theorem parseValue_true (fuel : Nat) (rest : List Char) :
    parseValue (fuel + 1) ('t' :: 'r' :: 'u' :: 'e' :: rest) = some (.bool true, rest) := rfl

theorem parseValue_false (fuel : Nat) (rest : List Char) :
    parseValue (fuel + 1) ('f' :: 'a' :: 'l' :: 's' :: 'e' :: rest) =
      some (.bool false, rest) := rfl

/-- Unfolding of parseValue on an opening quote. -/
theorem parseValue_quote (fuel : Nat) (cs : List Char) :
    parseValue (fuel + 1) ('"' :: cs) =
      match parseStringBody cs with
      | some p => some (.str (String.mk p.1), p.2)
      | none => none := rfl

/-- Unfolding of parseValue on a minus sign. -/
theorem parseValue_minus (fuel : Nat) (cs : List Char) :
    parseValue (fuel + 1) ('-' :: cs) =
      match parseNat cs with
      | some p => if floatStart p.2 then none else some (.num (-(p.1 : Int)), p.2)
      | none => none := rfl

/-- Unfolding of parseValue on an opening bracket. -/
theorem parseValue_lbracket (fuel : Nat) (cs : List Char) :
    parseValue (fuel + 1) ('[' :: cs) =
      match skipWs cs with
      | [] => none
      | d :: r2 =>
        if d = ']' then some (.arr .nil, r2)
        else
          match parseArrItems fuel (d :: r2) with
          | some p => some (.arr p.1, p.2)
          | none => none := rfl

/-- Unfolding of parseValue on an opening brace. -/
theorem parseValue_lbrace (fuel : Nat) (cs : List Char) :
    parseValue (fuel + 1) ('{' :: cs) =
      match skipWs cs with
      | [] => none
      | d :: r2 =>
        if d = '}' then some (.obj .nil, r2)
        else
          match parseObjItems fuel (d :: r2) with
          | some p => some (.obj p.1, p.2)
          | none => none := rfl

/-- Unfolding of parseValue on a leading digit. -/
theorem parseValue_digit (fuel : Nat) (c : Char) (cs : List Char) (h : isDigitC c = true) :
    parseValue (fuel + 1) (c :: cs) =
      match parseNat (c :: cs) with
      | some p => if floatStart p.2 then none else some (.num (p.1 : Int), p.2)
      | none => none := by
  have hn : c ≠ 'n' := digit_ne c 'n' h (by decide)
  have ht : c ≠ 't' := digit_ne c 't' h (by decide)
  have hf : c ≠ 'f' := digit_ne c 'f' h (by decide)
  have hq : c ≠ '"' := digit_ne c '"' h (by decide)
  have hm : c ≠ '-' := digit_ne c '-' h (by decide)
  simp only [parseValue]
  rw [skipWs_cons_not_ws c cs (not_ws_of_digit c h)]
  simp [hn, ht, hf, hq, hm, h]

/-- After a value, canonical output continues with a newline or a comma (or
ends); such a continuation never extends a number token. -/
def sepStart : List Char → Bool
  | [] => true
  | c :: _ => c = '\n' || c = ','

theorem sepStart_digitStart (rest : List Char) (h : sepStart rest = true) :
    digitStart rest = false := by
  cases rest with
  | nil => rfl
  | cons c r =>
    have h2 : c = '\n' ∨ c = ',' := by
      simpa [sepStart, Bool.or_eq_true, decide_eq_true_eq] using h
    rcases h2 with hc | hc <;> (subst hc; rfl)

theorem sepStart_floatStart (rest : List Char) (h : sepStart rest = true) :
    floatStart rest = false := by
  cases rest with
  | nil => rfl
  | cons c r =>
    have h2 : c = '\n' ∨ c = ',' := by
      simpa [sepStart, Bool.or_eq_true, decide_eq_true_eq] using h
    rcases h2 with hc | hc <;> (subst hc; rfl)

theorem digitChar_isDigit : ∀ m : Fin 10, isDigitC (digitChar m.val) = true := by decide

theorem digitChar_toDigit : ∀ m : Fin 10, (digitChar m.val).toNat - 48 = m.val := by decide

theorem digitChar_ne_zero : ∀ m : Fin 10, 0 < m.val → digitChar m.val ≠ '0' := by decide

theorem natToCharsAux_acc :
    ∀ fuel n acc, natToCharsAux fuel n acc = natToCharsAux fuel n [] ++ acc := by
  intro fuel
  induction fuel with
  | zero => intro n acc; rfl
  | succ f ih =>
    intro n acc
    by_cases h : n < 10
    · simp [natToCharsAux, h]
    · simp only [natToCharsAux, if_neg h]
      rw [ih (n / 10) (digitChar (n % 10) :: acc), ih (n / 10) [digitChar (n % 10)]]
      simp

theorem parseDigitsAux_spec :
    ∀ ds rest acc, (∀ c ∈ ds, isDigitC c = true) → digitStart rest = false →
      parseDigitsAux (ds ++ rest) acc = (List.foldl digStep acc ds, rest) := by
  intro ds
  induction ds with
  | nil =>
    intro rest acc _ hr
    cases rest with
    | nil => rfl
    | cons c r =>
      have hc : isDigitC c = false := by simpa [digitStart] using hr
      simp [parseDigitsAux, hc]
  | cons c ds ih =>
    intro rest acc hd hr
    have hc : isDigitC c = true := hd c (List.mem_cons_self c ds)
    simp only [List.cons_append, parseDigitsAux, hc, if_true, List.foldl_cons]
    exact ih rest (digStep acc c) (fun x hx => hd x (List.mem_cons_of_mem c hx)) hr

theorem natAux_spec :
    ∀ fuel n, n < 10 ^ fuel → 0 < fuel →
      natToCharsAux fuel n [] ≠ [] ∧
        (∀ c ∈ natToCharsAux fuel n [], isDigitC c = true) ∧
        List.foldl digStep 0 (natToCharsAux fuel n []) = n ∧
        (∀ c cs, natToCharsAux fuel n [] = c :: cs → 0 < n → c ≠ '0') := by
  intro fuel
  induction fuel with
  | zero => intro n _ h0; omega
  | succ f ih =>
    intro n hn _
    by_cases h : n < 10
    · have hd : isDigitC (digitChar n) = true := digitChar_isDigit ⟨n, h⟩
      have hv : (digitChar n).toNat - 48 = n := digitChar_toDigit ⟨n, h⟩
      simp only [natToCharsAux, if_pos h]
      refine ⟨by simp, ?_, ?_, ?_⟩
      · intro c hm
        have : c = digitChar n := by simpa using hm
        subst this; exact hd
      · simp [digStep, hv]
      · intro c cs he h0
        have : digitChar n = c := (List.cons.injEq _ _ _ _ ▸ he).1
        subst this
        exact digitChar_ne_zero ⟨n, h⟩ h0
    · have h10 : 10 ≤ n := le_of_not_lt h
      have hf : 0 < f := by
        rcases Nat.eq_zero_or_pos f with h0 | h0
        · subst h0; simp at hn; omega
        · exact h0
      have hdiv : n / 10 < 10 ^ f := by
        rw [pow_succ, mul_comm] at hn
        exact Nat.div_lt_of_lt_mul hn
      obtain ⟨hne, hdig, hval, hhead⟩ := ih (n / 10) hdiv hf
      have hm10 : n % 10 < 10 := Nat.mod_lt _ (by norm_num)
      have hdm : isDigitC (digitChar (n % 10)) = true := digitChar_isDigit ⟨_, hm10⟩
      have hvm : (digitChar (n % 10)).toNat - 48 = n % 10 := digitChar_toDigit ⟨_, hm10⟩
      simp only [natToCharsAux, if_neg h]
      rw [natToCharsAux_acc f (n / 10) [digitChar (n % 10)]]
      refine ⟨by simp [hne], ?_, ?_, ?_⟩
      · intro c hm
        rcases List.mem_append.mp hm with hm | hm
        · exact hdig c hm
        · have : c = digitChar (n % 10) := by simpa using hm
          subst this; exact hdm
      · rw [List.foldl_append, hval]
        simp only [List.foldl_cons, List.foldl_nil, digStep, hvm]
        omega
      · intro c cs he h0
        cases hx : natToCharsAux f (n / 10) [] with
        | nil => exact absurd hx hne
        | cons c0 cs0 =>
          rw [hx] at he
          have : c0 = c := by simpa using congrArg (fun l => l.head?) he
          subst this
          exact hhead c0 cs0 hx (by omega)

theorem natToChars_spec (n : Nat) :
    natToChars n ≠ [] ∧ (∀ c ∈ natToChars n, isDigitC c = true) ∧
      List.foldl digStep 0 (natToChars n) = n ∧
      (∀ c cs, natToChars n = c :: cs → 0 < n → c ≠ '0') := by
  have h1 : n < 10 ^ (n + 1) :=
    lt_of_lt_of_le (Nat.lt_pow_self (by norm_num) n)
      (Nat.pow_le_pow_right (by norm_num) (Nat.le_succ n))
  exact natAux_spec (n + 1) n h1 (Nat.succ_pos n)

theorem parseNat_natToChars (n : Nat) (rest : List Char) (hr : digitStart rest = false) :
    parseNat (natToChars n ++ rest) = some (n, rest) := by
  by_cases h0 : n = 0
  · subst h0
    show parseNat ('0' :: rest) = some (0, rest)
    simp [parseNat, hr]
  · obtain ⟨hne, hdig, hval, hhead⟩ := natToChars_spec n
    cases hx : natToChars n with
    | nil => exact absurd hx hne
    | cons c cs =>
      have hc : isDigitC c = true := hdig c (hx ▸ List.mem_cons_self c cs)
      have hcz : c ≠ '0' := hhead c cs hx (Nat.pos_of_ne_zero h0)
      simp only [List.cons_append, parseNat, if_neg hcz, hc, if_true]
      have hds : ∀ x ∈ cs, isDigitC x = true := fun x hxm =>
        hdig x (hx ▸ List.mem_cons_of_mem c hxm)
      rw [parseDigitsAux_spec cs rest (c.toNat - 48) hds hr]
      have : List.foldl digStep (c.toNat - 48) cs = n := by
        have h01 : digStep 0 c = c.toNat - 48 := by simp [digStep]
        rw [← h01, ← List.foldl_cons, ← hx]
        exact hval
      rw [this]

theorem parseValue_intToChars (fuel : Nat) (n : Int) (rest : List Char)
    (hsep : sepStart rest = true) :
    parseValue (fuel + 1) (intToChars n ++ rest) = some (.num n, rest) := by
  have hds : digitStart rest = false := sepStart_digitStart rest hsep
  have hfs : floatStart rest = false := sepStart_floatStart rest hsep
  cases n with
  | ofNat m =>
    obtain ⟨hne, hdig, _, _⟩ := natToChars_spec m
    cases hx : natToChars m with
    | nil => exact absurd hx hne
    | cons c cs =>
      have hc : isDigitC c = true := hdig c (hx ▸ List.mem_cons_self c cs)
      show parseValue (fuel + 1) (natToChars m ++ rest) = _
      rw [hx, List.cons_append, parseValue_digit fuel c (cs ++ rest) hc,
        ← List.cons_append, ← hx, parseNat_natToChars m rest hds]
      simp [hfs]
  | negSucc m =>
    show parseValue (fuel + 1) (('-' :: natToChars (m + 1)) ++ rest) = _
    rw [List.cons_append, parseValue_minus fuel (natToChars (m + 1) ++ rest),
      parseNat_natToChars (m + 1) rest hds]
    simp [hfs]
    rw [Int.negSucc_eq]
    ring

theorem parseHexDigit_hexDigitChar :
    ∀ m : Fin 16, parseHexDigit (hexDigitChar m.val) = some m.val := by decide

/-- A literal (unescaped) character inside a string body. -/
theorem psb_lit (c : Char) (X : List Char) (h1 : c ≠ '"') (h2 : c ≠ '\\')
    (h3 : 32 ≤ c.toNat) : parseStringBody (c :: X) = consMap c (parseStringBody X) := by
  have h3n : ¬c.toNat < 32 := by omega
  rw [parseStringBody.eq_def]
  simp [h1, h2, h3n]

theorem psb_esc_bs (X : List Char) :
    parseStringBody ('\\' :: '\\' :: X) = consMap '\\' (parseStringBody X) := by
  rw [parseStringBody.eq_def]
  simp

theorem psb_esc_quote (X : List Char) :
    parseStringBody ('\\' :: '"' :: X) = consMap '"' (parseStringBody X) := by
  rw [parseStringBody.eq_def]
  simp

theorem psb_esc_b (X : List Char) :
    parseStringBody ('\\' :: 'b' :: X) = consMap (Char.ofNat 8) (parseStringBody X) := by
  rw [parseStringBody.eq_def]
  simp

theorem psb_esc_t (X : List Char) :
    parseStringBody ('\\' :: 't' :: X) = consMap (Char.ofNat 9) (parseStringBody X) := by
  rw [parseStringBody.eq_def]
  simp

theorem psb_esc_n (X : List Char) :
    parseStringBody ('\\' :: 'n' :: X) = consMap (Char.ofNat 10) (parseStringBody X) := by
  rw [parseStringBody.eq_def]
  simp

theorem psb_esc_f (X : List Char) :
    parseStringBody ('\\' :: 'f' :: X) = consMap (Char.ofNat 12) (parseStringBody X) := by
  rw [parseStringBody.eq_def]
  simp

theorem psb_esc_r (X : List Char) :
    parseStringBody ('\\' :: 'r' :: X) = consMap (Char.ofNat 13) (parseStringBody X) := by
  rw [parseStringBody.eq_def]
  simp

/-- A \u00xy escape with both hex digits produced by hexDigitChar. -/
theorem psb_esc_u (a b : Nat) (ha : a < 16) (hb : b < 16) (X : List Char)
    (hs : ¬(0xD800 ≤ a * 16 + b ∧ a * 16 + b ≤ 0xDFFF)) :
    parseStringBody ('\\' :: 'u' :: '0' :: '0' :: hexDigitChar a :: hexDigitChar b :: X) =
      consMap (Char.ofNat (a * 16 + b)) (parseStringBody X) := by
  have h1 : parseHexDigit (hexDigitChar a) = some a := parseHexDigit_hexDigitChar ⟨a, ha⟩
  have h2 : parseHexDigit (hexDigitChar b) = some b := parseHexDigit_hexDigitChar ⟨b, hb⟩
  have h0 : parseHexDigit '0' = some 0 := rfl
  rw [parseStringBody.eq_def]
  simp [h0, h1, h2, hs]

/-- Round trip for string bodies: parsing an escaped body recovers it. -/
theorem parseStringBody_escChars :
    ∀ cs rest, parseStringBody (escChars cs ++ ('"' :: rest)) = some (cs, rest) := by
  intro cs
  induction cs with
  | nil =>
    intro rest
    rw [show escChars [] ++ ('"' :: rest) = '"' :: rest from rfl]
    rw [parseStringBody.eq_def]
    simp
  | cons c cs ih =>
    intro rest
    show parseStringBody ((escapeChar c ++ escChars cs) ++ ('"' :: rest)) = _
    rw [List.append_assoc]
    by_cases h1 : c = '\\'
    · subst h1
      rw [show escapeChar '\\' = ['\\', '\\'] from rfl]
      rw [show (['\\', '\\'] : List Char) ++ (escChars cs ++ ('"' :: rest)) =
        '\\' :: '\\' :: (escChars cs ++ ('"' :: rest)) from rfl]
      rw [psb_esc_bs, ih rest]
      rfl
    · by_cases h2 : c = '"'
      · subst h2
        rw [show escapeChar '"' = ['\\', '"'] from rfl]
        rw [show (['\\', '"'] : List Char) ++ (escChars cs ++ ('"' :: rest)) =
          '\\' :: '"' :: (escChars cs ++ ('"' :: rest)) from rfl]
        rw [psb_esc_quote, ih rest]
        rfl
      · by_cases h3 : 32 ≤ c.toNat
        · rw [show escapeChar c = [c] from by simp [escapeChar, h1, h2, h3]]
          rw [show ([c] : List Char) ++ (escChars cs ++ ('"' :: rest)) =
            c :: (escChars cs ++ ('"' :: rest)) from rfl]
          rw [psb_lit c _ h2 h1 h3, ih rest]
          rfl
        · by_cases h8 : c = Char.ofNat 8
          · subst h8
            rw [show escapeChar (Char.ofNat 8) = ['\\', 'b'] from rfl]
            rw [show (['\\', 'b'] : List Char) ++ (escChars cs ++ ('"' :: rest)) =
              '\\' :: 'b' :: (escChars cs ++ ('"' :: rest)) from rfl]
            rw [psb_esc_b, ih rest]
            rfl
          · by_cases h9 : c = Char.ofNat 9
            · subst h9
              rw [show escapeChar (Char.ofNat 9) = ['\\', 't'] from rfl]
              rw [show (['\\', 't'] : List Char) ++ (escChars cs ++ ('"' :: rest)) =
                '\\' :: 't' :: (escChars cs ++ ('"' :: rest)) from rfl]
              rw [psb_esc_t, ih rest]
              rfl
            · by_cases h10 : c = Char.ofNat 10
              · subst h10
                rw [show escapeChar (Char.ofNat 10) = ['\\', 'n'] from rfl]
                rw [show (['\\', 'n'] : List Char) ++ (escChars cs ++ ('"' :: rest)) =
                  '\\' :: 'n' :: (escChars cs ++ ('"' :: rest)) from rfl]
                rw [psb_esc_n, ih rest]
                rfl
              · by_cases h12 : c = Char.ofNat 12
                · subst h12
                  rw [show escapeChar (Char.ofNat 12) = ['\\', 'f'] from rfl]
                  rw [show (['\\', 'f'] : List Char) ++ (escChars cs ++ ('"' :: rest)) =
                    '\\' :: 'f' :: (escChars cs ++ ('"' :: rest)) from rfl]
                  rw [psb_esc_f, ih rest]
                  rfl
                · by_cases h13 : c = Char.ofNat 13
                  · subst h13
                    rw [show escapeChar (Char.ofNat 13) = ['\\', 'r'] from rfl]
                    rw [show (['\\', 'r'] : List Char) ++ (escChars cs ++ ('"' :: rest)) =
                      '\\' :: 'r' :: (escChars cs ++ ('"' :: rest)) from rfl]
                    rw [psb_esc_r, ih rest]
                    rfl
                  · have hesc : escapeChar c =
                        ['\\', 'u', '0', '0', hexDigitChar (c.toNat / 16),
                          hexDigitChar (c.toNat % 16)] := by
                      simp [escapeChar, h1, h2, h3, h8, h9, h10, h12, h13]
                    rw [hesc]
                    rw [show (['\\', 'u', '0', '0', hexDigitChar (c.toNat / 16),
                        hexDigitChar (c.toNat % 16)] : List Char) ++
                        (escChars cs ++ ('"' :: rest)) =
                      '\\' :: 'u' :: '0' :: '0' :: hexDigitChar (c.toNat / 16) ::
                        hexDigitChar (c.toNat % 16) :: (escChars cs ++ ('"' :: rest)) from rfl]
                    have hlt : c.toNat < 32 := by omega
                    have ha : c.toNat / 16 < 16 := by omega
                    have hb : c.toNat % 16 < 16 := by omega
                    have hs : ¬(0xD800 ≤ c.toNat / 16 * 16 + c.toNat % 16 ∧
                        c.toNat / 16 * 16 + c.toNat % 16 ≤ 0xDFFF) := by omega
                    rw [psb_esc_u (c.toNat / 16) (c.toNat % 16) ha hb _ hs]
                    rw [show c.toNat / 16 * 16 + c.toNat % 16 = c.toNat from by omega]
                    rw [Char.ofNat_toNat, ih rest]
                    rfl

/-- Round trip for whole string literals. -/
theorem parseValue_quoteString (fuel : Nat) (s : String) (rest : List Char) :
    parseValue (fuel + 1) (quoteString s ++ rest) = some (.str s, rest) := by
  show parseValue (fuel + 1) (('"' :: (escChars s.data ++ ['"'])) ++ rest) = _
  rw [List.cons_append, parseValue_quote, List.append_assoc]
  rw [show (['"'] : List Char) ++ rest = '"' :: rest from rfl]
  rw [parseStringBody_escChars s.data rest]

/-- The first character a serialized document puts on the wire: never
whitespace and never a closing bracket or brace. -/
theorem dumps_head (d : Nat) (t : Json) :
    ∃ c cs, dumps d t = c :: cs ∧ isWs c = false ∧ c ≠ ']' ∧ c ≠ '}' := by
  cases t with
  | num n =>
    cases n with
    | ofNat m =>
      obtain ⟨hne, hdig, _, _⟩ := natToChars_spec m
      cases hx : natToChars m with
      | nil => exact absurd hx hne
      | cons c cs =>
        have hc := hdig c (hx ▸ List.mem_cons_self c cs)
        refine ⟨c, cs, ?_, not_ws_of_digit c hc,
          digit_ne c ']' hc (by decide), digit_ne c '}' hc (by decide)⟩
        rw [show dumps d (.num (.ofNat m)) = natToChars m from rfl, hx]
    | negSucc m => exact ⟨'-', _, rfl, rfl, by decide, by decide⟩
  | null => exact ⟨'n', _, rfl, rfl, by decide, by decide⟩
  | bool b => cases b <;> exact ⟨_, _, rfl, rfl, by decide, by decide⟩
  | str s => exact ⟨'"', _, rfl, rfl, by decide, by decide⟩
  | arr items => cases items <;> exact ⟨'[', _, rfl, rfl, by decide, by decide⟩
  | obj fields => cases fields <;> exact ⟨'{', _, rfl, rfl, by decide, by decide⟩

/-- Opening bracket whose body starts with a non-bracket character. -/
theorem parseValue_lbracket_cons (fuel : Nat) (cs : List Char) (c0 : Char)
    (r2 : List Char) (hskip : skipWs cs = c0 :: r2) (hne : c0 ≠ ']') :
    parseValue (fuel + 1) ('[' :: cs) =
      match parseArrItems fuel (c0 :: r2) with
      | some p => some (.arr p.1, p.2)
      | none => none := by
  rw [parseValue_lbracket, hskip]
  simp [hne]

/-- Opening brace whose body starts with a non-brace character. -/
theorem parseValue_lbrace_cons (fuel : Nat) (cs : List Char) (c0 : Char)
    (r2 : List Char) (hskip : skipWs cs = c0 :: r2) (hne : c0 ≠ '}') :
    parseValue (fuel + 1) ('{' :: cs) =
      match parseObjItems fuel (c0 :: r2) with
      | some p => some (.obj p.1, p.2)
      | none => none := by
  rw [parseValue_lbrace, hskip]
  simp [hne]

/-- One simultaneous fuel induction establishing the round trip for values,
array item lists and object item lists. -/
theorem roundtrip_aux : ∀ fuel : Nat,
    (∀ t d rest, jsize t < fuel → sepStart rest = true →
      parseValue fuel (dumps d t ++ rest) = some (t, rest)) ∧
    (∀ h tl ind d rest, asize (JArr.cons h tl) < fuel → sepStart rest = true →
      parseArrItems fuel
          (dumps ind h ++ (dumpsArrItems ind tl ++ ('\n' :: (indentChars d ++ (']' :: rest))))) =
        some (JArr.cons h tl, rest)) ∧
    (∀ k v tl ind d rest, osize (JObj.cons k v tl) < fuel → sepStart rest = true →
      parseObjItems fuel
          (quoteString k ++ (':' :: ' ' :: (dumps ind v ++ (dumpsObjItems ind tl ++
            ('\n' :: (indentChars d ++ ('}' :: rest))))))) =
        some (JObj.cons k v tl, rest)) := by
  intro fuel
  induction fuel with
  | zero =>
    refine ⟨?_, ?_, ?_⟩
    · intro t d rest hs _; exact absurd hs (Nat.not_lt_zero _)
    · intro h tl ind d rest hs _; exact absurd hs (Nat.not_lt_zero _)
    · intro k v tl ind d rest hs _; exact absurd hs (Nat.not_lt_zero _)
  | succ fuel ih =>
    obtain ⟨ihP, ihQ, ihR⟩ := ih
    refine ⟨?_, ?_, ?_⟩
    · -- parseValue round trip
      intro t d rest hs hr
      cases t with
      | null => exact parseValue_null fuel rest
      | bool b =>
        cases b with
        | true => exact parseValue_true fuel rest
        | false => exact parseValue_false fuel rest
      | num n => exact parseValue_intToChars fuel n rest hr
      | str s => exact parseValue_quoteString fuel s rest
      | arr items =>
        cases items with
        | nil =>
          rw [show dumps d (.arr .nil) ++ rest = '[' :: ']' :: rest from rfl]
          rw [parseValue_lbracket, skipWs_cons_not_ws ']' rest (by decide)]
          simp
        | cons h tl =>
          rw [show dumps d (.arr (.cons h tl)) ++ rest =
            '[' :: ('\n' :: (indentChars (d + 1) ++ (dumps (d + 1) h ++
              (dumpsArrItems (d + 1) tl ++
                ('\n' :: (indentChars d ++ (']' :: rest))))))) from by
            simp [dumps]]
          obtain ⟨c0, cs0, hdh, hw0, hne0, _⟩ := dumps_head (d + 1) h
          have hskip : skipWs ('\n' :: (indentChars (d + 1) ++ (dumps (d + 1) h ++
              (dumpsArrItems (d + 1) tl ++ ('\n' :: (indentChars d ++ (']' :: rest))))))) =
              c0 :: (cs0 ++ (dumpsArrItems (d + 1) tl ++
                ('\n' :: (indentChars d ++ (']' :: rest))))) := by
            rw [skipWs_nl_indent, hdh, List.cons_append,
              skipWs_cons_not_ws c0 _ hw0]
          rw [parseValue_lbracket_cons fuel _ c0 _ hskip hne0]
          rw [← List.cons_append, ← hdh]
          have hsz : asize (JArr.cons h tl) < fuel := by
            simp only [jsize] at hs; omega
          rw [ihQ h tl (d + 1) d rest hsz hr]
      | obj fields =>
        cases fields with
        | nil =>
          rw [show dumps d (.obj .nil) ++ rest = '{' :: '}' :: rest from rfl]
          rw [parseValue_lbrace, skipWs_cons_not_ws '}' rest (by decide)]
          simp
        | cons k v tl =>
          rw [show dumps d (.obj (.cons k v tl)) ++ rest =
            '{' :: ('\n' :: (indentChars (d + 1) ++ (quoteString k ++ (':' :: ' ' ::
              (dumps (d + 1) v ++ (dumpsObjItems (d + 1) tl ++
                ('\n' :: (indentChars d ++ ('}' :: rest))))))))) from by
            simp [dumps, quoteString]]
          have hskip : skipWs ('\n' :: (indentChars (d + 1) ++ (quoteString k ++ (':' :: ' ' ::
              (dumps (d + 1) v ++ (dumpsObjItems (d + 1) tl ++
                ('\n' :: (indentChars d ++ ('}' :: rest))))))))) =
              '"' :: (escChars k.data ++ ('"' :: (':' :: ' ' ::
                (dumps (d + 1) v ++ (dumpsObjItems (d + 1) tl ++
                  ('\n' :: (indentChars d ++ ('}' :: rest)))))))) := by
            rw [skipWs_nl_indent]
            rw [show quoteString k ++ (':' :: ' ' ::
                (dumps (d + 1) v ++ (dumpsObjItems (d + 1) tl ++
                  ('\n' :: (indentChars d ++ ('}' :: rest)))))) =
              '"' :: (escChars k.data ++ ('"' :: (':' :: ' ' ::
                (dumps (d + 1) v ++ (dumpsObjItems (d + 1) tl ++
                  ('\n' :: (indentChars d ++ ('}' :: rest)))))))) from by
              simp [quoteString]]
            rw [skipWs_cons_not_ws '"' _ (by decide)]
          rw [parseValue_lbrace_cons fuel _ '"' _ hskip (by decide)]
          have hback : ('"' : Char) :: (escChars k.data ++ ('"' :: (':' :: ' ' ::
              (dumps (d + 1) v ++ (dumpsObjItems (d + 1) tl ++
                ('\n' :: (indentChars d ++ ('}' :: rest)))))))) =
              quoteString k ++ (':' :: ' ' ::
                (dumps (d + 1) v ++ (dumpsObjItems (d + 1) tl ++
                  ('\n' :: (indentChars d ++ ('}' :: rest)))))) := by
            simp [quoteString]
          rw [hback]
          have hsz : osize (JObj.cons k v tl) < fuel := by
            simp only [jsize] at hs; omega
          rw [ihR k v tl (d + 1) d rest hsz hr]
    · -- parseArrItems round trip
      intro h tl ind d rest hs hr
      have hsz : jsize h < fuel := by simp only [asize] at hs; omega
      have hsep1 : sepStart (dumpsArrItems ind tl ++
          ('\n' :: (indentChars d ++ (']' :: rest)))) = true := by
        cases tl with
        | nil => rfl
        | cons h2 tl2 => rfl
      simp only [parseArrItems, ihP h ind _ hsz hsep1]
      cases tl with
      | nil =>
        rw [show dumpsArrItems ind .nil ++ ('\n' :: (indentChars d ++ (']' :: rest))) =
          '\n' :: (indentChars d ++ (']' :: rest)) from rfl]
        rw [skipWs_nl_indent, skipWs_cons_not_ws ']' rest (by decide)]
        simp
      | cons h2 tl2 =>
        rw [show dumpsArrItems ind (.cons h2 tl2) ++
            ('\n' :: (indentChars d ++ (']' :: rest))) =
          ',' :: ('\n' :: (indentChars ind ++ (dumps ind h2 ++ (dumpsArrItems ind tl2 ++
            ('\n' :: (indentChars d ++ (']' :: rest))))))) from by
          simp [dumpsArrItems]]
        rw [skipWs_cons_not_ws ',' _ (by decide)]
        have hc1 : ((',' : Char) = ',') := rfl
        simp only [hc1, if_true]
        rw [show ('\n' :: (indentChars ind ++ (dumps ind h2 ++ (dumpsArrItems ind tl2 ++
            ('\n' :: (indentChars d ++ (']' :: rest))))))) =
          ('\n' :: indentChars ind) ++ (dumps ind h2 ++ (dumpsArrItems ind tl2 ++
            ('\n' :: (indentChars d ++ (']' :: rest))))) from rfl]
        rw [parseArrItems_leading_ws fuel _ _ (indent_all_ws ind)]
        have hsz2 : asize (JArr.cons h2 tl2) < fuel := by
          simp only [asize] at hs ⊢; omega
        rw [ihQ h2 tl2 ind d rest hsz2 hr]
    · -- parseObjItems round trip
      intro k v tl ind d rest hs hr
      have hsz : jsize v < fuel := by simp only [osize] at hs; omega
      have hsep1 : sepStart (dumpsObjItems ind tl ++
          ('\n' :: (indentChars d ++ ('}' :: rest)))) = true := by
        cases tl with
        | nil => rfl
        | cons k2 v2 tl2 => rfl
      rw [show quoteString k ++ (':' :: ' ' :: (dumps ind v ++ (dumpsObjItems ind tl ++
          ('\n' :: (indentChars d ++ ('}' :: rest)))))) =
        '"' :: (escChars k.data ++ ('"' :: (':' :: ' ' ::
          (dumps ind v ++ (dumpsObjItems ind tl ++
            ('\n' :: (indentChars d ++ ('}' :: rest)))))))) from by
        simp [quoteString]]
      simp only [parseObjItems]
      rw [skipWs_cons_not_ws '"' _ (by decide)]
      have hq : (('"' : Char) = '"') := rfl
      simp only [hq, if_true, parseStringBody_escChars]
      rw [skipWs_cons_not_ws ':' _ (by decide)]
      have hcolon : ((':' : Char) = ':') := rfl
      simp only [hcolon, if_true]
      rw [show (' ' :: (dumps ind v ++ (dumpsObjItems ind tl ++
          ('\n' :: (indentChars d ++ ('}' :: rest)))))) =
        ([' '] ++ (dumps ind v ++ (dumpsObjItems ind tl ++
          ('\n' :: (indentChars d ++ ('}' :: rest)))))) from rfl]
      rw [parseValue_leading_ws fuel [' '] _ (by intro c hm; simp at hm; subst hm; rfl)]
      simp only [ihP v ind _ hsz hsep1]
      cases tl with
      | nil =>
        rw [show dumpsObjItems ind .nil ++ ('\n' :: (indentChars d ++ ('}' :: rest))) =
          '\n' :: (indentChars d ++ ('}' :: rest)) from rfl]
        rw [skipWs_nl_indent, skipWs_cons_not_ws '}' rest (by decide)]
        simp
      | cons k2 v2 tl2 =>
        rw [show dumpsObjItems ind (.cons k2 v2 tl2) ++
            ('\n' :: (indentChars d ++ ('}' :: rest))) =
          ',' :: ('\n' :: (indentChars ind ++ (quoteString k2 ++ (':' :: ' ' ::
            (dumps ind v2 ++ (dumpsObjItems ind tl2 ++
              ('\n' :: (indentChars d ++ ('}' :: rest))))))))) from by
          simp [dumpsObjItems]]
        rw [skipWs_cons_not_ws ',' _ (by decide)]
        have hc1 : ((',' : Char) = ',') := rfl
        simp only [hc1, if_true]
        rw [show ('\n' :: (indentChars ind ++ (quoteString k2 ++ (':' :: ' ' ::
            (dumps ind v2 ++ (dumpsObjItems ind tl2 ++
              ('\n' :: (indentChars d ++ ('}' :: rest))))))))) =
          ('\n' :: indentChars ind) ++ (quoteString k2 ++ (':' :: ' ' ::
            (dumps ind v2 ++ (dumpsObjItems ind tl2 ++
              ('\n' :: (indentChars d ++ ('}' :: rest))))))) from rfl]
        rw [parseObjItems_leading_ws fuel _ _ (indent_all_ws ind)]
        have hsz2 : osize (JObj.cons k2 v2 tl2) < fuel := by
          simp only [osize] at hs ⊢; omega
        rw [ihR k2 v2 tl2 ind d rest hsz2 hr]

mutual
/-- A document never serializes to fewer characters than its node count. -/
theorem jsize_le_dumps : ∀ (t : Json) (d : Nat), jsize t ≤ (dumps d t).length
  | .null, d => by simp [jsize, dumps, nullChars]
  | .bool true, d => by simp [jsize, dumps, trueChars]
  | .bool false, d => by simp [jsize, dumps, falseChars]
  | .num (.ofNat m), d => by
    obtain ⟨hne, _, _, _⟩ := natToChars_spec m
    have : 0 < (natToChars m).length := List.length_pos.mpr hne
    simp only [jsize, dumps, intToChars]
    omega
  | .num (.negSucc m), d => by simp [jsize, dumps, intToChars]
  | .str s, d => by simp [jsize, dumps, quoteString]
  | .arr .nil, d => by simp [jsize, asize, dumps]
  | .arr (.cons h tl), d => by
    have h1 := jsize_le_dumps h (d + 1)
    have h2 := asize_le_dumpsArrItems tl (d + 1)
    simp only [jsize, asize, dumps, List.length_cons, List.length_append, indentChars] at *
    omega
  | .obj .nil, d => by simp [jsize, osize, dumps]
  | .obj (.cons k v tl), d => by
    have h1 := jsize_le_dumps v (d + 1)
    have h2 := osize_le_dumpsObjItems tl (d + 1)
    simp only [jsize, osize, dumps, List.length_cons, List.length_append, indentChars,
      quoteString] at *
    omega
theorem asize_le_dumpsArrItems : ∀ (a : JArr) (ind : Nat),
    asize a ≤ (dumpsArrItems ind a).length
  | .nil, ind => by simp [asize, dumpsArrItems]
  | .cons h tl, ind => by
    have h1 := jsize_le_dumps h ind
    have h2 := asize_le_dumpsArrItems tl ind
    simp only [asize, dumpsArrItems, List.length_cons, List.length_append, indentChars] at *
    omega
theorem osize_le_dumpsObjItems : ∀ (o : JObj) (ind : Nat),
    osize o ≤ (dumpsObjItems ind o).length
  | .nil, ind => by simp [osize, dumpsObjItems]
  | .cons k v tl, ind => by
    have h1 := jsize_le_dumps v ind
    have h2 := osize_le_dumpsObjItems tl ind
    simp only [osize, dumpsObjItems, List.length_cons, List.length_append, indentChars,
      quoteString] at *
    omega
end

/-- json.loads inverts the canonical renderer on any document. -/
theorem json_loads_dumps (t : Json) : json_loads (dumps 0 t ++ ['\n']) = some t := by
  have hlen : jsize t ≤ (dumps 0 t).length := jsize_le_dumps t 0
  have hfuel : jsize t < 2 * (dumps 0 t ++ ['\n']).length + 2 := by
    simp only [List.length_append, List.length_cons, List.length_nil] at *
    omega
  unfold json_loads
  rw [(roundtrip_aux _).1 t 0 ['\n'] hfuel rfl]
  rfl

/-- Non-strict adjacent ordering of an object's keys. -/
def sortedFields : JObj → Bool
  | .nil => true
  | .cons _ _ .nil => true
  | .cons k1 _ (.cons k2 v2 tl) =>
    !(ltChars k2.data k1.data) && sortedFields (.cons k2 v2 tl)

theorem ltChars_asymm : ∀ a b, ltChars a b = true → ltChars b a = false := by
  intro a
  induction a with
  | nil =>
    intro b h
    cases b with
    | nil => simp [ltChars] at h
    | cons c bs => simp [ltChars]
  | cons c as ih =>
    intro b h
    cases b with
    | nil => simp [ltChars] at h
    | cons c2 bs =>
      simp only [ltChars] at h ⊢
      by_cases h1 : c.toNat < c2.toNat
      · have h2 : ¬c2.toNat < c.toNat := by omega
        simp [h1, h2]
      · by_cases h2 : c2.toNat < c.toNat
        · rw [if_neg h1, if_pos h2] at h
          cases h
        · rw [if_neg h1, if_neg h2] at h
          rw [if_neg h2, if_neg h1]
          exact ih bs h

theorem sortedFields_tail (k : String) (v : Json) (tl : JObj)
    (h : sortedFields (.cons k v tl) = true) : sortedFields tl = true := by
  cases tl with
  | nil => rfl
  | cons k2 v2 tl2 =>
    simp only [sortedFields, Bool.and_eq_true] at h
    exact h.2

theorem insertField_sorted (k : String) (v : Json) :
    ∀ o, sortedFields o = true → sortedFields (insertField k v o) = true
  | .nil, _ => rfl
  | .cons k2 v2 tl, h => by
    have ih := insertField_sorted k v tl
    have htl : sortedFields tl = true := sortedFields_tail k2 v2 tl h
    by_cases hlt : ltChars k2.data k.data = true
    · rw [show insertField k v (.cons k2 v2 tl) = .cons k2 v2 (insertField k v tl) from by
        simp [insertField, hlt]]
      have hins := ih htl
      cases tl with
      | nil =>
        rw [show insertField k v JObj.nil = .cons k v .nil from rfl]
        simp [sortedFields, ltChars_asymm _ _ hlt]
      | cons k4 v4 tl4 =>
        by_cases hlt2 : ltChars k4.data k.data = true
        · rw [show insertField k v (.cons k4 v4 tl4) = .cons k4 v4 (insertField k v tl4) from by
            simp [insertField, hlt2]] at hins ⊢
          have hh : !(ltChars k4.data k2.data) = true := by
            simp only [sortedFields, Bool.and_eq_true] at h
            simp [h.1]
          simp only [sortedFields, Bool.and_eq_true]
          exact ⟨by simpa using hh, hins⟩
        · rw [show insertField k v (.cons k4 v4 tl4) = .cons k v (.cons k4 v4 tl4) from by
            simp [insertField, hlt2]] at hins ⊢
          simp only [sortedFields, Bool.and_eq_true] at hins ⊢
          exact ⟨by simp [ltChars_asymm _ _ hlt], hins⟩
    · have hlt0 : ltChars k2.data k.data = false := by
        cases hx : ltChars k2.data k.data
        · rfl
        · exact absurd hx hlt
      rw [show insertField k v (.cons k2 v2 tl) = .cons k v (.cons k2 v2 tl) from by
        simp [insertField, hlt0]]
      cases tl with
      | nil => simp [sortedFields, hlt0]
      | cons k4 v4 tl4 =>
        simp only [sortedFields, Bool.and_eq_true] at h ⊢
        exact ⟨by simp [hlt0], h⟩

theorem sortFields_sorted : ∀ o, sortedFields (sortFields o) = true
  | .nil => rfl
  | .cons k v tl => insertField_sorted k v (sortFields tl) (sortFields_sorted tl)

theorem sortFields_of_sorted : ∀ o, sortedFields o = true → sortFields o = o
  | .nil, _ => rfl
  | .cons k v tl, h => by
    have ih := sortFields_of_sorted tl
    have htl := sortedFields_tail k v tl h
    rw [show sortFields (.cons k v tl) = insertField k v (sortFields tl) from rfl,
      ih htl]
    cases tl with
    | nil => rfl
    | cons k2 v2 tl2 =>
      have hh : ltChars k2.data k.data = false := by
        simp only [sortedFields, Bool.and_eq_true, Bool.not_eq_true'] at h
        exact h.1
      simp [insertField, hh]

theorem sortFields_idem (o : JObj) : sortFields (sortFields o) = sortFields o :=
  sortFields_of_sorted (sortFields o) (sortFields_sorted o)

theorem sortObjVals_insertField (k : String) (v : Json) :
    ∀ o, sortObjVals (insertField k v o) = insertField k (sortJson v) (sortObjVals o)
  | .nil => rfl
  | .cons k2 v2 tl => by
    have ih := sortObjVals_insertField k v tl
    by_cases hlt : ltChars k2.data k.data = true
    · rw [show insertField k v (.cons k2 v2 tl) = .cons k2 v2 (insertField k v tl) from by
        simp [insertField, hlt]]
      rw [show sortObjVals (.cons k2 v2 (insertField k v tl)) =
        .cons k2 (sortJson v2) (sortObjVals (insertField k v tl)) from rfl]
      rw [ih]
      rw [show sortObjVals (.cons k2 v2 tl) = .cons k2 (sortJson v2) (sortObjVals tl) from rfl]
      simp [insertField, hlt]
    · rw [show insertField k v (.cons k2 v2 tl) = .cons k v (.cons k2 v2 tl) from by
        simp [insertField, hlt]]
      rw [show sortObjVals (.cons k v (.cons k2 v2 tl)) =
        .cons k (sortJson v) (.cons k2 (sortJson v2) (sortObjVals tl)) from rfl]
      rw [show sortObjVals (.cons k2 v2 tl) = .cons k2 (sortJson v2) (sortObjVals tl) from rfl]
      simp [insertField, hlt]

theorem sortObjVals_sortFields :
    ∀ o, sortObjVals (sortFields o) = sortFields (sortObjVals o)
  | .nil => rfl
  | .cons k v tl => by
    have ih := sortObjVals_sortFields tl
    rw [show sortFields (.cons k v tl) = insertField k v (sortFields tl) from rfl]
    rw [sortObjVals_insertField, ih]
    rfl

mutual
/-- Recursive key sorting is idempotent. -/
theorem sortJson_idem : ∀ j, sortJson (sortJson j) = sortJson j
  | .null => rfl
  | .bool b => rfl
  | .num n => rfl
  | .str s => rfl
  | .arr items => by
    have h := sortArr_idem items
    simp [sortJson, h]
  | .obj fields => by
    have h := sortObjVals_idem fields
    show Json.obj (sortFields (sortObjVals (sortFields (sortObjVals fields)))) =
      Json.obj (sortFields (sortObjVals fields))
    rw [sortObjVals_sortFields (sortObjVals fields), h, sortFields_idem]
theorem sortArr_idem : ∀ a, sortArr (sortArr a) = sortArr a
  | .nil => rfl
  | .cons h t => by
    have h1 := sortJson_idem h
    have h2 := sortArr_idem t
    simp [sortArr, h1, h2]
theorem sortObjVals_idem : ∀ o, sortObjVals (sortObjVals o) = sortObjVals o
  | .nil => rfl
  | .cons k v t => by
    have h1 := sortJson_idem v
    have h2 := sortObjVals_idem t
    simp [sortObjVals, h1, h2]
end

/-- C2: canonical formatting is idempotent.  Whenever the canonical
serialization of a document parses back (json.loads of format_json), the
canonical serialization of the parsed result is byte-identical to the
original serialization. -/
theorem format_json_idempotent (j j2 : Json)
    (h : json_loads (format_json j) = some j2) :
    format_json j2 = format_json j := by
  have hr : json_loads (format_json j) = some (sortJson j) := json_loads_dumps (sortJson j)
  rw [hr] at h
  have hj : j2 = sortJson j := by
    have := Option.some.injEq (sortJson j) j2 ▸ h
    exact this.symm
  subst hj
  show dumps 0 (sortJson (sortJson j)) ++ ['\n'] = dumps 0 (sortJson j) ++ ['\n']
  rw [sortJson_idem j]

theorem format_json_idempotent_witness :
    format_json (Json.obj (.cons "a" (.num 1) (.cons "b" .null .nil))) =
      format_json (Json.obj (.cons "b" .null (.cons "a" (.num 1) .nil))) :=
  format_json_idempotent (Json.obj (.cons "b" .null (.cons "a" (.num 1) .nil)))
    (Json.obj (.cons "a" (.num 1) (.cons "b" .null .nil))) rfl
